import Mathlib

/-!
# govm: an HTTP front end for the `govc` command-line tool

A shallow embedding of `govm.go` and a verification of its listing, streaming,
error-translation, output-capture and configuration behaviour.

Conventions of the embedding:

* a Go `string` or `[]byte` is a list of bytes (`GoString`), so `len` is `List.length`
  and `s[n:]` is `List.drop n s`;
* calls into the `echo` response API are recorded, in order, in a log of `Effect`s carried by
  the request `Context`; the result of each write into the response is supplied by the sink;
* process-wide state (`os.Stdout`, open descriptors, the environment) is passed explicitly;
* the external command `cli.Run` is a parameter: the text it prints and the status it returns.
-/

namespace Govm

/-! ## Strings and formatting -/

/-- A Go string or byte slice: a finite sequence of bytes. -/
abbrev GoString := List Nat

/-- The bytes of an ASCII literal. -/
def ascii (s : String) : GoString := s.toList.map Char.toNat

/-- Go `strings.Split(s, sep)` for a one-byte separator: the pieces of `s` between consecutive
occurrences of `sep`; there is always one more piece than there are separators. -/
def stringsSplit (s : GoString) (sep : Nat) : List GoString :=
  match s with
  | [] => [[]]
  | c :: cs =>
    if c = sep then [] :: stringsSplit cs sep
    else
      match stringsSplit cs sep with
      | [] => [[c]]
      | l :: ls => (c :: l) :: ls

/-- The byte of the line feed character, the separator `"\n"`. -/
def newline : Nat := 10

/-- The verb `%d` of Go `fmt` applied to an `int`: decimal digits, with a leading minus sign for
a negative number. -/
def fmtInt (n : Int) : GoString :=
  match n with
  | Int.ofNat m => (Nat.toDigits 10 m).map Char.toNat
  | Int.negSucc m => 45 :: (Nat.toDigits 10 (m + 1)).map Char.toNat

/-- A Go `error` value, identified with the text its `Error()` method returns. -/
structure GoError where
  msg : GoString
deriving DecidableEq, Repr

/-- The call `fmt.Errorf("%s (%d)", out, res)` of `handleListVm`. -/
def fmtErrorf (out : GoString) (res : Int) : GoError :=
  ⟨out ++ ascii " (" ++ fmtInt res ++ ascii ")"⟩

/-- The call `fmt.Sprintf("%s", err)` of `replyJsonError`: the text of the error. -/
def fmtSprintf (err : GoError) : GoString := err.msg

/-! ## The name-extraction loop of `handleListVm` -/

/-- The body of the `for` loop of `handleListVm`: a line longer than `vmPath` appends its
suffix after `len(vmPath)` bytes to `vms`; any other line leaves `vms` as it is. -/
def appendVm (vmPath : GoString) (vms : List GoString) (vmAlias : GoString) : List GoString :=
  if vmAlias.length > vmPath.length then vms ++ [vmAlias.drop vmPath.length] else vms

/-- The loop of `handleListVm` over `strings.Split(string(out), "\n")`, started from
`vms := []string{}`. -/
def listNames (vmPath : GoString) (out : GoString) : List GoString :=
  (stringsSplit out newline).foldl (appendVm vmPath) []

/-! ## The response sink of a request -/

/-- Header names set by the handlers (`echo.ContentType`). -/
inductive HeaderName where
  | contentType
deriving DecidableEq, Repr

/-- Header values set by the handlers (`echo.ApplicationJSON`). -/
inductive HeaderValue where
  | applicationJSON
deriving DecidableEq, Repr

/-- The value stored in a response map: the `interface{}` passed to `replyJson` (a slice of
names) or the string built by `replyJsonError`. -/
inductive Payload where
  | names (vs : List GoString)
  | text (s : GoString)
deriving DecidableEq, Repr

/-- The one-entry `map[string]interface{}` handed to `ctx.JSON`. -/
structure Envelope where
  key : String
  value : Payload
deriving DecidableEq, Repr

/-- One call made on the response of a request, with the result the sink gave for it. -/
inductive Effect where
  /-- The call `Response().Header().Set(k, v)`. -/
  | setHeader (k : HeaderName) (v : HeaderValue)
  /-- The call `Response().WriteHeader(code)`. -/
  | writeHeader (code : Nat)
  /-- The call `json.NewEncoder(Response()).Encode(l)`: the bytes offered and the result. -/
  | encode (data : GoString) (err : Option GoError)
  /-- The call `Response().Flush()`. -/
  | flush
  /-- The call `ctx.JSON(code, body)` and the result the sink gave for its write. -/
  | json (code : Nat) (body : Envelope) (err : Option GoError)
deriving DecidableEq, Repr

/-- The `*echo.Context` of one request: the `:alias` path parameter, the calls made on the
response so far, the number of writes attempted so far, and the sink, which gives the result of
the write attempted after `n` earlier ones (`none` for success). -/
structure Context where
  aliasParam : GoString
  log : List Effect
  writes : Nat
  outcome : Nat → Option GoError

/-- Appends one call to the log. -/
def Context.record (c : Context) (e : Effect) : Context :=
  { c with log := c.log ++ [e] }

/-- The call `c.Response().Header().Set(k, v)`. -/
def Context.setHeader (c : Context) (k : HeaderName) (v : HeaderValue) : Context :=
  c.record (Effect.setHeader k v)

/-- The call `c.Response().WriteHeader(code)`. -/
def Context.writeHeader (c : Context) (code : Nat) : Context :=
  c.record (Effect.writeHeader code)

/-- The call `c.Response().Flush()`. -/
def Context.flush (c : Context) : Context :=
  c.record Effect.flush

/-- The call `json.NewEncoder(c.Response()).Encode(l)` on the bytes of the document `l`. -/
def Context.encode (c : Context) (data : GoString) : Context × Option GoError :=
  let err := c.outcome c.writes
  ({ c with log := c.log ++ [Effect.encode data err], writes := c.writes + 1 }, err)

/-- The call `ctx.JSON(code, body)`: echo marshals the body, sets the content type, writes the
status and then the bytes, and returns `nil`. Marshalling a map that holds a string or a slice
of strings cannot fail, and the result of the write is dropped, so the call returns no error
whatever the sink answers; the log keeps the answer of the sink. -/
def Context.JSON (c : Context) (code : Nat) (body : Envelope) : Context × Option GoError :=
  let err := c.outcome c.writes
  ({ c with log := c.log ++ [Effect.json code body err], writes := c.writes + 1 }, none)

/-- The constant `http.StatusOK`. -/
def httpStatusOK : Nat := 200

/-- The function `replyJson`. -/
def replyJson (ctx : Context) (v : Payload) : Context × Option GoError :=
  ctx.JSON 200 ⟨"response", v⟩

/-- The function `replyJsonError`. -/
def replyJsonError (ctx : Context) (err : GoError) : Context × Option GoError :=
  ctx.JSON 400 ⟨"error", Payload.text (fmtSprintf err)⟩

/-! ## Process-wide state -/

/-- An open file of the process: a standard stream or one end of a pipe. -/
inductive Fd where
  | std (n : Nat)
  | pipeR (p : Nat)
  | pipeW (p : Nat)
deriving DecidableEq, Repr

/-- One operation on the state of the process, as it happened. -/
inductive OsEvent where
  /-- The call `os.Pipe()` returned the read end `r` and the write end `w`. -/
  | pipeMade (r w : Fd)
  /-- The assignment `os.Stdout = fd`. -/
  | stdoutSet (fd : Fd)
  /-- The call `cli.Run(args)` was made while `os.Stdout` was `stdout`. -/
  | ran (args : List GoString) (stdout : Fd)
  /-- The call `fd.Close()`. -/
  | fileClosed (fd : Fd)
deriving DecidableEq, Repr

/-- The state of the process that `handleListVm` reads and writes: the variable `os.Stdout`,
the number of the next pipe to be created, the bytes written so far to each descriptor (those
of a pipe are kept under its write end), which descriptors are closed, and the operations
performed so far, in order. -/
structure World where
  stdout : Fd
  nextPipe : Nat
  data : Fd → GoString
  closed : Fd → Bool
  history : List OsEvent

/-- An assignment to the variable `os.Stdout`. -/
def setStdout (fd : Fd) (os : World) : World :=
  { os with stdout := fd, history := os.history ++ [OsEvent.stdoutSet fd] }

/-- The call `os.Pipe()`: a new, empty pipe; returns its read end, its write end and the new
state. The error result, which `handleListVm` discards, is not modelled. -/
def osPipe (os : World) : Fd × Fd × World :=
  let r := Fd.pipeR os.nextPipe
  let w := Fd.pipeW os.nextPipe
  (r, w,
    { os with
      nextPipe := os.nextPipe + 1
      data := Function.update os.data w []
      closed := Function.update (Function.update os.closed w false) r false
      history := os.history ++ [OsEvent.pipeMade r w] })

/-- A write to a descriptor: appends the bytes, unless the descriptor is closed. A pipe is taken
to hold everything written to it until it is read. -/
def fileWrite (fd : Fd) (bytes : GoString) (os : World) : World :=
  if os.closed fd then os else { os with data := Function.update os.data fd (os.data fd ++ bytes) }

/-- The method `Close` of a file. -/
def fileClose (fd : Fd) (os : World) : World :=
  { os with
    closed := Function.update os.closed fd true
    history := os.history ++ [OsEvent.fileClosed fd] }

/-- The call `ioutil.ReadAll(r)` once the write end is closed: everything written to the pipe;
nothing for a descriptor that is not the read end of a pipe. -/
def ioutilReadAll (r : Fd) (os : World) : GoString :=
  match r with
  | Fd.pipeR p => os.data (Fd.pipeW p)
  | _ => []

/-- What one run of the external command does: the text it prints on standard output and the
status it returns. -/
structure Cmd where
  text : GoString
  code : Int
deriving DecidableEq, Repr

/-- The external tool behind `cli.Run`, as a function of its argument vector. -/
abbrev Govc := List GoString → Cmd

/-- The call `cli.Run(args)`: prints on whatever `os.Stdout` currently is and returns the exit
status. -/
def cliRun (govc : Govc) (args : List GoString) (os : World) : Int × World :=
  ((govc args).code,
    fileWrite os.stdout (govc args).text
      { os with history := os.history ++ [OsEvent.ran args os.stdout] })

/-! ## The application and its handlers -/

/-- The struct `App`: the configured inventory path. Its router is the function `App.router`
below. -/
structure App where
  vmPath : GoString
deriving DecidableEq, Repr

/-- The argument vector `[]string{"ls", a.vmPath}` of the call to `cli.Run`. -/
def App.lsArgs (a : App) : List GoString := [ascii "ls", a.vmPath]

/-- What a handler can read and change: the context of its request and the state of the
process. -/
structure State where
  ctx : Context
  os : World

/-- The type `echo.HandlerFunc`: a handler runs on a state and returns the new state and its
`error` result (`none` for `nil`). -/
abbrev HandlerFunc := State → State × Option GoError

/-- First three statements of `handleListVm`: save `os.Stdout` in `rescueStdout`, create the
pipe, assign its write end to `os.Stdout`. Returns `rescueStdout`, `r`, `w` and the state. -/
def redirectStdout (os : World) : Fd × Fd × Fd × World :=
  let rescueStdout := os.stdout
  let (r, w, os1) := osPipe os
  (rescueStdout, r, w, setStdout w os1)

/-- The capture sequence of `handleListVm`, from `rescueStdout := os.Stdout` to
`os.Stdout = rescueStdout`: returns `out`, `res` and the state of the process. -/
def captureRun (govc : Govc) (args : List GoString) (os : World) : GoString × Int × World :=
  let (rescueStdout, r, w, os1) := redirectStdout os
  let (res, os2) := cliRun govc args os1
  let os3 := fileClose w os2
  let out := ioutilReadAll r os3
  (out, res, setStdout rescueStdout os3)

/-- The method `App.handleListVm`. The calls to `log.Printf` write to the logger, which is not
part of the state. -/
def handleListVm (a : App) (govc : Govc) : HandlerFunc := fun s =>
  let (out, res, os1) := captureRun govc a.lsArgs s.os
  if res ≠ 0 then
    ({ s with os := os1 }, some (fmtErrorf out res))
  else
    let vms := listNames a.vmPath out
    let (ctx1, _) := replyJson s.ctx (Payload.names vms)
    ({ ctx := ctx1, os := os1 }, none)

/-- The anonymous `struct{ H, W int }` of `handleDownloadVm`. -/
structure HW where
  H : Int
  W : Int
deriving DecidableEq, Repr

/-- The slice literal ranged over by `handleDownloadVm`. -/
def demoRecords : List HW := [⟨2, 7⟩, ⟨4, 7⟩, ⟨8, 7⟩]

/-- The JSON text `encoding/json` produces for a `struct{ H, W int }`. -/
def jsonMarshal (l : HW) : GoString :=
  ascii "\x7b\"H\":" ++ fmtInt l.H ++ ascii ",\"W\":" ++ fmtInt l.W ++ ascii "\x7d"

/-- The bytes `Encoder.Encode` offers to the writer: the JSON text and a line feed. -/
def encodedLine (l : HW) : GoString := jsonMarshal l ++ [newline]

/-- The `for` loop of `handleDownloadVm`: encode a record, return at once if that fails,
otherwise flush and go on with the next record. -/
def emitLoop : List HW → Context → Context × Option GoError
  | [], c => (c, none)
  | l :: ls, c =>
    match c.encode (encodedLine l) with
    | (c1, some err) => (c1, some err)
    | (c1, none) => emitLoop ls c1.flush

/-- The calls of a run of the loop over `ls` in which every write succeeds: for each record in
order, its document encoded without error, then one flush. -/
def deliveredEffects : List HW → List Effect
  | [] => []
  | l :: ls => Effect.encode (encodedLine l) none :: Effect.flush :: deliveredEffects ls

/-- The method `App.handleDownloadVm`. -/
def handleDownloadVm (_a : App) : HandlerFunc := fun s =>
  let c1 := s.ctx.setHeader HeaderName.contentType HeaderValue.applicationJSON
  let c2 := c1.writeHeader httpStatusOK
  let (c3, err) := emitLoop demoRecords c2
  ({ s with ctx := c3 }, err)

/-- The function `echoJsonCheckErrorMW`, applied to a handler `h`. -/
def echoJsonCheckErrorMW (h : HandlerFunc) : HandlerFunc := fun c =>
  let (c1, err) := h c
  match err with
  | some e =>
    let (ctx2, r) := replyJsonError c1.ctx e
    ({ c1 with ctx := ctx2 }, r)
  | none => (c1, none)

/-- The two routes registered by `NewApp`. -/
inductive Route where
  | getVms
  | postVmsAlias
deriving DecidableEq, Repr

/-- The router built by `NewApp`: `Use(echoJsonCheckErrorMW())` wraps the handler of every
route. The library middlewares `Logger` and `Recover`, which wrap the result from outside, are
not modelled. -/
def App.router (a : App) (govc : Govc) : Route → HandlerFunc
  | Route.getVms => echoJsonCheckErrorMW (handleListVm a govc)
  | Route.postVmsAlias => echoJsonCheckErrorMW (handleDownloadVm a)

/-! ## Configuration -/

/-- The environment of the process: a variable is undefined (`none`) or defined with a value,
which may be empty. -/
abbrev Env := String → Option GoString

/-- The call `os.Getenv(k)`: the value, empty when the variable is not defined. -/
def osGetenv (env : Env) (k : String) : GoString := (env k).getD []

/-- The call `os.Setenv(k, v)`. -/
def osSetenv (env : Env) (k : String) (v : GoString) : Env := Function.update env k (some v)

/-- The configuration `viper` holds after `ReadInConfig`: for each key, its value if it is
set. -/
structure Viper where
  vals : String → Option GoString

/-- The call `viper.IsSet(k)`. -/
def Viper.IsSet (v : Viper) (k : String) : Bool := (v.vals k).isSome

/-- The call `viper.GetString(k)`. -/
def Viper.GetString (v : Viper) (k : String) : GoString := (v.vals k).getD []

/-- The slice of keys ranged over by `NewApp`. -/
def govcKeys : List String :=
  ["GOVC_URL", "GOVC_USERNAME", "GOVC_PASSWORD", "GOVC_CERTIFICATE", "GOVC_PRIVATE_KEY",
   "GOVC_INSECURE", "GOVC_PERSIST_SESSION", "GOVC_MIN_API_VERSION"]

/-- The body of the loop of `NewApp` for one key. -/
def copyKey (v : Viper) (env : Env) (cnfAlias : String) : Env :=
  if v.IsSet cnfAlias && osGetenv env cnfAlias == [] then
    osSetenv env cnfAlias (v.GetString cnfAlias)
  else env

/-- The function `NewApp`, given the result of `viper.ReadInConfig()`: the application and the
new environment, or `none` when `log.Fatalf` ends the process. -/
def NewApp (readInConfig : Except GoError Viper) (env : Env) : Option (App × Env) :=
  match readInConfig with
  | Except.ok v =>
    let env1 := govcKeys.foldl (copyKey v) env
    let vmPath := if v.IsSet "vm-path" then v.GetString "vm-path" else []
    some (⟨vmPath⟩, env1)
  | Except.error _ => none

/-! ## Concurrent requests

The HTTP server runs every request in its own goroutine, so several invocations of
`handleListVm` can be in progress at once. The capture sequence of each is run statement by
statement; a schedule says which invocation executes its next statement. -/

/-- The local variables of one invocation of the capture sequence, and the number of
statements it has executed. -/
structure Locals where
  pc : Nat
  rescueStdout : Fd
  r : Fd
  w : Fd
  res : Int
  out : GoString
deriving DecidableEq, Repr

/-- An invocation that has not started. -/
def Locals.start : Locals := ⟨0, Fd.std 0, Fd.std 0, Fd.std 0, 0, []⟩

/-- The next statement of the capture sequence of `handleListVm`, in source order:
`rescueStdout := os.Stdout`; `r, w, _ := os.Pipe()`; `os.Stdout = w`; `res := cli.Run(...)`;
`w.Close()`; `out, _ := ioutil.ReadAll(r)`; `os.Stdout = rescueStdout`. No statement takes or
releases a lock. -/
def stmt (govc : Govc) (args : List GoString) (l : Locals) (os : World) : Locals × World :=
  match l.pc with
  | 0 => ({ l with pc := 1, rescueStdout := os.stdout }, os)
  | 1 =>
    let (r, w, os1) := osPipe os
    ({ l with pc := 2, r := r, w := w }, os1)
  | 2 => ({ l with pc := 3 }, setStdout l.w os)
  | 3 =>
    let (res, os1) := cliRun govc args os
    ({ l with pc := 4, res := res }, os1)
  | 4 => ({ l with pc := 5 }, fileClose l.w os)
  | 5 => ({ l with pc := 6, out := ioutilReadAll l.r os }, os)
  | 6 => ({ l with pc := 7 }, setStdout l.rescueStdout os)
  | _ => (l, os)

/-- An invocation holds the redirected stream from its `os.Stdout = w` until its
`os.Stdout = rescueStdout`. -/
def Locals.holdsRedirect (l : Locals) : Bool := decide (3 ≤ l.pc) && decide (l.pc ≤ 6)

/-- An invocation has finished its capture sequence. -/
def Locals.done (l : Locals) : Bool := decide (7 ≤ l.pc)

/-- The process with its concurrent invocations. -/
structure Machine where
  os : World
  threads : Nat → Locals

/-- All invocations not yet started. -/
def Machine.init (os : World) : Machine := ⟨os, fun _ => Locals.start⟩

/-- Invocation `i` executes its next statement; `govcs i` is what its external command does. -/
def Machine.step (govcs : Nat → Govc) (args : List GoString) (m : Machine) (i : Nat) : Machine :=
  let (l, os) := stmt (govcs i) args (m.threads i) m.os
  { os := os, threads := Function.update m.threads i l }

/-- Runs a schedule: the list of the invocations that take the successive steps. -/
def Machine.run (govcs : Nat → Govc) (args : List GoString) (m : Machine) (sched : List Nat) :
    Machine :=
  sched.foldl (Machine.step govcs args) m

/-- The schedule without interleaving: invocations `0, ..., n-1` one after another, each
running its seven statements before the next one starts. -/
def serialSchedule : Nat → List Nat
  | 0 => []
  | n + 1 => serialSchedule n ++ List.replicate 7 n

/-! ## Auxiliary facts -/

theorem stringsSplit_ne_nil (s : GoString) (sep : Nat) : stringsSplit s sep ≠ [] := by
  induction s with
  | nil => simp [stringsSplit]
  | cons c cs ih =>
    unfold stringsSplit
    split
    · simp
    · split <;> simp

/-- Joining the pieces of `strings.Split` with the separator gives the string back. -/
theorem stringsSplit_intercalate (s : GoString) (sep : Nat) :
    List.intercalate [sep] (stringsSplit s sep) = s := by
  induction s with
  | nil => simp [stringsSplit, List.intercalate]
  | cons c cs ih =>
    unfold stringsSplit
    split
    · next h =>
      have hne := stringsSplit_ne_nil cs sep
      cases hsp : stringsSplit cs sep with
      | nil => exact absurd hsp hne
      | cons l ls =>
        rw [hsp] at ih
        simp only [List.intercalate, List.intersperse, List.flatten] at ih ⊢
        simp [h, ih]
    · cases hsp : stringsSplit cs sep with
      | nil => exact absurd hsp (stringsSplit_ne_nil cs sep)
      | cons l ls =>
        rw [hsp] at ih
        cases ls with
        | nil =>
          simp only [List.intercalate, List.intersperse, List.flatten] at ih ⊢
          simp at ih ⊢
          exact ih
        | cons l2 ls2 =>
          simp only [List.intercalate, List.intersperse, List.flatten] at ih ⊢
          simp at ih ⊢
          exact ih

/-- No piece of `strings.Split` contains the separator. -/
theorem stringsSplit_no_sep (s : GoString) (sep : Nat) :
    ∀ l ∈ stringsSplit s sep, sep ∉ l := by
  induction s with
  | nil => simp [stringsSplit]
  | cons c cs ih =>
    unfold stringsSplit
    split
    · intro l hl
      rcases List.mem_cons.mp hl with h | h
      · subst h; simp
      · exact ih l h
    · next hc =>
      cases hsp : stringsSplit cs sep with
      | nil => exact absurd hsp (stringsSplit_ne_nil cs sep)
      | cons l0 ls =>
        rw [hsp] at ih
        intro l hl
        rcases List.mem_cons.mp hl with h | h
        · subst h
          have := ih l0 (List.mem_cons_self _ _)
          simp only [List.mem_cons, not_or]
          exact ⟨fun e => hc e.symm, this⟩
        · exact ih l (List.mem_cons_of_mem _ h)

/-- The loop of `handleListVm` keeps the lines longer than `vmPath`, in order, each cut after
`len(vmPath)` bytes. -/
theorem foldl_appendVm (vmPath : GoString) (lines acc : List GoString) :
    lines.foldl (appendVm vmPath) acc =
      acc ++ (lines.filter (fun l => decide (vmPath.length < l.length))).map
        (List.drop vmPath.length) := by
  induction lines generalizing acc with
  | nil => simp
  | cons l ls ih =>
    simp only [List.foldl_cons, ih, appendVm]
    by_cases h : vmPath.length < l.length
    · simp [h, List.filter_cons]
    · simp [h, List.filter_cons]

theorem listNames_eq (vmPath out : GoString) :
    listNames vmPath out =
      ((stringsSplit out newline).filter (fun l => decide (vmPath.length < l.length))).map
        (List.drop vmPath.length) := by
  simp [listNames, foldl_appendVm]

/-- The capture sequence returns exactly what the command printed. -/
theorem captureRun_out (govc : Govc) (args : List GoString) (os : World) :
    (captureRun govc args os).1 = (govc args).text := by
  simp [captureRun, redirectStdout, setStdout, osPipe, cliRun, fileWrite, fileClose, ioutilReadAll]

theorem captureRun_res (govc : Govc) (args : List GoString) (os : World) :
    (captureRun govc args os).2.1 = (govc args).code := by
  simp [captureRun, redirectStdout, setStdout, osPipe, cliRun, fileWrite, fileClose, ioutilReadAll]

theorem captureRun_stdout (govc : Govc) (args : List GoString) (os : World) :
    (captureRun govc args os).2.2.stdout = os.stdout := by
  simp [captureRun, redirectStdout, setStdout, osPipe, cliRun, fileWrite, fileClose, ioutilReadAll]

theorem handleListVm_ok (a : App) (govc : Govc) (s : State)
    (h : (captureRun govc a.lsArgs s.os).2.1 = 0) :
    handleListVm a govc s =
      ({ ctx := (replyJson s.ctx
            (Payload.names (listNames a.vmPath (captureRun govc a.lsArgs s.os).1))).1,
         os := (captureRun govc a.lsArgs s.os).2.2 }, none) := by
  simp [handleListVm, h]

theorem handleListVm_fail (a : App) (govc : Govc) (s : State)
    (h : (captureRun govc a.lsArgs s.os).2.1 ≠ 0) :
    handleListVm a govc s =
      ({ s with os := (captureRun govc a.lsArgs s.os).2.2 },
        some (fmtErrorf (captureRun govc a.lsArgs s.os).1 (captureRun govc a.lsArgs s.os).2.1)) := by
  simp [handleListVm, h]

/-! ## The inventory lister -/

/-- C1: when the capture returns the text `out` with exit status 0, `handleListVm` replies with
the names `listNames vmPath out`, and these are exactly, in order, `l[len(vmPath):]` for the
pieces `l` of `out` split on line feeds that are strictly longer than `vmPath`; so there are
never more names than pieces, there are as many names as pieces when every piece is longer than
`vmPath`, and root `/dc/vm/` with output `/dc/vm/\n/dc/vm/web1\n/dc/vm/db1\n` gives
`web1`, `db1`. -/
theorem listVm_names (a : App) (govc : Govc) (s : State) (out : GoString)
    (hout : (captureRun govc a.lsArgs s.os).1 = out)
    (hres : (captureRun govc a.lsArgs s.os).2.1 = 0) :
    (handleListVm a govc s).2 = none
    ∧ (handleListVm a govc s).1.ctx.log =
        s.ctx.log ++ [Effect.json 200 ⟨"response", Payload.names (listNames a.vmPath out)⟩
          (s.ctx.outcome s.ctx.writes)]
    ∧ listNames a.vmPath out =
        ((stringsSplit out newline).filter (fun l => decide (a.vmPath.length < l.length))).map
          (List.drop a.vmPath.length)
    ∧ (listNames a.vmPath out).length ≤ (stringsSplit out newline).length
    ∧ ((∀ l ∈ stringsSplit out newline, a.vmPath.length < l.length) →
        (listNames a.vmPath out).length = (stringsSplit out newline).length
        ∧ listNames a.vmPath out = (stringsSplit out newline).map (List.drop a.vmPath.length))
    ∧ listNames (ascii "/dc/vm/") (ascii "/dc/vm/\n/dc/vm/web1\n/dc/vm/db1\n") =
        [ascii "web1", ascii "db1"] := by
  refine ⟨?_, ?_, listNames_eq _ _, ?_, ?_, by decide⟩
  · rw [handleListVm_ok a govc s hres]
  · rw [handleListVm_ok a govc s hres, hout]
    simp [replyJson, Context.JSON]
  · rw [listNames_eq, List.length_map]
    exact List.length_filter_le _ _
  · intro hall
    have hf : (stringsSplit out newline).filter (fun l => decide (a.vmPath.length < l.length)) =
        stringsSplit out newline := by
      apply List.filter_eq_self.mpr
      intro l hl
      simpa using hall l hl
    rw [listNames_eq, hf]
    simp

/-- The scenario of the specification run through the handler: root `/dc/vm/`, captured output
`/dc/vm/\n/dc/vm/web1\n/dc/vm/db1\n`, exit status 0. -/
theorem listVm_names_witness :
    (handleListVm ⟨ascii "/dc/vm/"⟩ (fun _ => ⟨ascii "/dc/vm/\n/dc/vm/web1\n/dc/vm/db1\n", 0⟩)
        ⟨⟨[], [], 0, fun _ => none⟩, ⟨Fd.std 1, 0, fun _ => [], fun _ => false, []⟩⟩).1.ctx.log =
      [Effect.json 200 ⟨"response", Payload.names [ascii "web1", ascii "db1"]⟩ none] := by
  have h := (listVm_names ⟨ascii "/dc/vm/"⟩
    (fun _ => ⟨ascii "/dc/vm/\n/dc/vm/web1\n/dc/vm/db1\n", 0⟩)
    ⟨⟨[], [], 0, fun _ => none⟩, ⟨Fd.std 1, 0, fun _ => [], fun _ => false, []⟩⟩
    (ascii "/dc/vm/\n/dc/vm/web1\n/dc/vm/db1\n") (by decide) (by decide)).2
  rw [h.1, h.2.2.2.2]
  rfl

/-- C10, as stated, fails: with root `vm` and the output line `/dc/vm/web1` the handler returns
the name `c/vm/web1`, and no line of the output equals the root followed by that name. -/
theorem listVm_name_not_suffix_of_root :
    (handleListVm ⟨ascii "vm"⟩ (fun _ => ⟨ascii "/dc/vm/web1\n", 0⟩)
        ⟨⟨[], [], 0, fun _ => none⟩, ⟨Fd.std 1, 0, fun _ => [], fun _ => false, []⟩⟩).1.ctx.log =
      [Effect.json 200 ⟨"response", Payload.names [ascii "c/vm/web1"]⟩ none]
    ∧ ∀ l ∈ stringsSplit (ascii "/dc/vm/web1\n") newline, l ≠ ascii "vm" ++ ascii "c/vm/web1" := by
  decide

/-- C10, amended: every name `n` returned by `handleListVm` on exit status 0 is cut from one
line `l` of the captured output that is longer than the root: `n = l[len(vmPath):]`, so `l` is
its own first `len(vmPath)` bytes followed by `n`; and when that line begins with the root,
`l = vmPath ++ n`. -/
theorem listVm_name_from_line (a : App) (govc : Govc) (s : State) (out : GoString)
    (hout : (captureRun govc a.lsArgs s.os).1 = out)
    (hres : (captureRun govc a.lsArgs s.os).2.1 = 0) :
    ∃ vms, (handleListVm a govc s).1.ctx.log =
        s.ctx.log ++ [Effect.json 200 ⟨"response", Payload.names vms⟩ (s.ctx.outcome s.ctx.writes)]
      ∧ ∀ n ∈ vms, ∃ l ∈ stringsSplit out newline,
          a.vmPath.length < l.length
          ∧ n = l.drop a.vmPath.length
          ∧ l = l.take a.vmPath.length ++ n
          ∧ (a.vmPath <+: l → l = a.vmPath ++ n) := by
  refine ⟨listNames a.vmPath out, ?_, ?_⟩
  · rw [handleListVm_ok a govc s hres, hout]
    simp [replyJson, Context.JSON]
  · intro n hn
    rw [listNames_eq, List.mem_map] at hn
    obtain ⟨l, hl, rfl⟩ := hn
    rw [List.mem_filter] at hl
    refine ⟨l, hl.1, by simpa using hl.2, rfl, (List.take_append_drop _ _).symm, ?_⟩
    rintro ⟨t, rfl⟩
    simp

/-- A run with root `/dc/vm/` in which the returned name `web1` comes from the line
`/dc/vm/web1`. -/
theorem listVm_name_from_line_witness :
    ∃ vms, (handleListVm ⟨ascii "/dc/vm/"⟩ (fun _ => ⟨ascii "/dc/vm/web1", 0⟩)
        ⟨⟨[], [], 0, fun _ => none⟩, ⟨Fd.std 1, 0, fun _ => [], fun _ => false, []⟩⟩).1.ctx.log =
        [] ++ [Effect.json 200 ⟨"response", Payload.names vms⟩ none]
      ∧ ∀ n ∈ vms, ∃ l ∈ stringsSplit (ascii "/dc/vm/web1") newline,
          (ascii "/dc/vm/").length < l.length
          ∧ n = l.drop (ascii "/dc/vm/").length
          ∧ l = l.take (ascii "/dc/vm/").length ++ n
          ∧ (ascii "/dc/vm/" <+: l → l = ascii "/dc/vm/" ++ n) :=
  listVm_name_from_line ⟨ascii "/dc/vm/"⟩ (fun _ => ⟨ascii "/dc/vm/web1", 0⟩)
    ⟨⟨[], [], 0, fun _ => none⟩, ⟨Fd.std 1, 0, fun _ => [], fun _ => false, []⟩⟩
    (ascii "/dc/vm/web1") (by decide) (by decide)

/-! ## The streaming emitter -/

theorem emitLoop_ok (recs : List HW) (c : Context)
    (hok : ∀ i, i < recs.length → c.outcome (c.writes + i) = none) :
    emitLoop recs c =
      ({ c with log := c.log ++ deliveredEffects recs, writes := c.writes + recs.length },
        none) := by
  induction recs generalizing c with
  | nil => simp [emitLoop, deliveredEffects]
  | cons l ls ih =>
    have h0 : c.outcome c.writes = none := by simpa using hok 0 (by simp)
    have hrest : ∀ i, i < ls.length →
        (Context.flush (Context.encode c (encodedLine l)).1).outcome
          ((Context.flush (Context.encode c (encodedLine l)).1).writes + i) = none := by
      intro i hi
      have := hok (i + 1) (by simpa using hi)
      simpa [Context.flush, Context.record, Context.encode, Nat.add_assoc, Nat.add_comm 1 i]
        using this
    have hstep : emitLoop (l :: ls) c =
        emitLoop ls (Context.flush (Context.encode c (encodedLine l)).1) := by
      simp [emitLoop, Context.encode, h0]
    rw [hstep, ih _ hrest]
    simp [Context.flush, Context.record, Context.encode, deliveredEffects, h0,
      Nat.add_assoc, Nat.add_comm 1 ls.length]

theorem emitLoop_fail (recs : List HW) (c : Context) (j : Nat) (e : GoError) (l : HW)
    (hl : recs[j]? = some l)
    (hok : ∀ i, i < j → c.outcome (c.writes + i) = none)
    (hfail : c.outcome (c.writes + j) = some e) :
    emitLoop recs c =
      ({ c with
          log := c.log ++ deliveredEffects (recs.take j) ++ [Effect.encode (encodedLine l) (some e)],
          writes := c.writes + j + 1 },
        some e) := by
  induction recs generalizing c j with
  | nil => simp at hl
  | cons r rs ih =>
    cases j with
    | zero =>
      have hr : r = l := by simpa using hl
      subst hr
      have h0 : c.outcome c.writes = some e := by simpa using hfail
      simp [emitLoop, Context.encode, h0, deliveredEffects]
    | succ j =>
      have h0 : c.outcome c.writes = none := by simpa using hok 0 (by simp)
      have hl2 : rs[j]? = some l := by simpa using hl
      have hstep : emitLoop (r :: rs) c =
          emitLoop rs (Context.flush (Context.encode c (encodedLine r)).1) := by
        simp [emitLoop, Context.encode, h0]
      have hok2 : ∀ i, i < j →
          (Context.flush (Context.encode c (encodedLine r)).1).outcome
            ((Context.flush (Context.encode c (encodedLine r)).1).writes + i) = none := by
        intro i hi
        have := hok (i + 1) (by omega)
        simpa [Context.flush, Context.record, Context.encode, Nat.add_assoc, Nat.add_comm 1 i]
          using this
      have hfail2 : (Context.flush (Context.encode c (encodedLine r)).1).outcome
            ((Context.flush (Context.encode c (encodedLine r)).1).writes + j) = some e := by
        simpa [Context.flush, Context.record, Context.encode, Nat.add_assoc, Nat.add_comm 1 j]
          using hfail
      rw [hstep, ih _ j hl2 hok2 hfail2]
      simp [Context.flush, Context.record, Context.encode, deliveredEffects, h0,
        Nat.add_assoc, Nat.add_comm 1 j]

theorem handleDownloadVm_eq (a : App) (s : State) :
    handleDownloadVm a s =
      ({ s with ctx := (emitLoop demoRecords
          ((s.ctx.setHeader HeaderName.contentType HeaderValue.applicationJSON).writeHeader
            httpStatusOK)).1 },
        (emitLoop demoRecords
          ((s.ctx.setHeader HeaderName.contentType HeaderValue.applicationJSON).writeHeader
            httpStatusOK)).2) := by
  simp [handleDownloadVm]

theorem encodedLine_demo :
    encodedLine ⟨2, 7⟩ = ascii "\x7b\"H\":2,\"W\":7\x7d\n"
    ∧ encodedLine ⟨4, 7⟩ = ascii "\x7b\"H\":4,\"W\":7\x7d\n"
    ∧ encodedLine ⟨8, 7⟩ = ascii "\x7b\"H\":8,\"W\":7\x7d\n" := by
  decide

/-- C3: on a sink whose writes all succeed, `handleDownloadVm` returns no error and makes exactly
these calls, in this order: set the content type to JSON, `WriteHeader(200)` once, then for the
records `(2,7)`, `(4,7)`, `(8,7)` in turn the document `{"H":h,"W":7}` (followed by the line
feed the encoder adds) and one flush; and the calls are the same whatever the `:alias`
parameter is. -/
theorem download_effects (a : App) (s : State) (hok : ∀ n, s.ctx.outcome n = none) :
    (handleDownloadVm a s).2 = none
    ∧ (handleDownloadVm a s).1.ctx.log = s.ctx.log ++
        [Effect.setHeader HeaderName.contentType HeaderValue.applicationJSON,
         Effect.writeHeader 200,
         Effect.encode (ascii "\x7b\"H\":2,\"W\":7\x7d\n") none, Effect.flush,
         Effect.encode (ascii "\x7b\"H\":4,\"W\":7\x7d\n") none, Effect.flush,
         Effect.encode (ascii "\x7b\"H\":8,\"W\":7\x7d\n") none, Effect.flush]
    ∧ ∀ al : GoString,
        (handleDownloadVm a { s with ctx := { s.ctx with aliasParam := al } }).1.ctx.log =
          (handleDownloadVm a s).1.ctx.log := by
  have key : ∀ c : Context, (∀ n, c.outcome n = none) →
      emitLoop demoRecords
          ((c.setHeader HeaderName.contentType HeaderValue.applicationJSON).writeHeader
            httpStatusOK) =
        ({ c with
            log := c.log ++
              [Effect.setHeader HeaderName.contentType HeaderValue.applicationJSON,
               Effect.writeHeader 200,
               Effect.encode (ascii "\x7b\"H\":2,\"W\":7\x7d\n") none, Effect.flush,
               Effect.encode (ascii "\x7b\"H\":4,\"W\":7\x7d\n") none, Effect.flush,
               Effect.encode (ascii "\x7b\"H\":8,\"W\":7\x7d\n") none, Effect.flush],
            writes := c.writes + 3 }, none) := by
    intro c hc
    rw [emitLoop_ok demoRecords
      ((c.setHeader HeaderName.contentType HeaderValue.applicationJSON).writeHeader httpStatusOK)
      (fun i _ => by simpa [Context.setHeader, Context.writeHeader, Context.record] using hc _)]
    obtain ⟨h1, h2, h3⟩ := encodedLine_demo
    simp [Context.setHeader, Context.writeHeader, Context.record, demoRecords, deliveredEffects,
      httpStatusOK, h1, h2, h3]
  refine ⟨?_, ?_, ?_⟩
  · rw [handleDownloadVm_eq, key s.ctx hok]
  · rw [handleDownloadVm_eq, key s.ctx hok]
  · intro al
    rw [handleDownloadVm_eq, handleDownloadVm_eq, key s.ctx hok,
      key { s.ctx with aliasParam := al } hok]

/-- A request for alias `web1` on a sink that never fails. -/
theorem download_effects_witness :
    (handleDownloadVm ⟨ascii "/dc/vm/"⟩
        ⟨⟨ascii "web1", [], 0, fun _ => none⟩,
         ⟨Fd.std 1, 0, fun _ => [], fun _ => false, []⟩⟩).1.ctx.log =
      [] ++ [Effect.setHeader HeaderName.contentType HeaderValue.applicationJSON,
         Effect.writeHeader 200,
         Effect.encode (ascii "\x7b\"H\":2,\"W\":7\x7d\n") none, Effect.flush,
         Effect.encode (ascii "\x7b\"H\":4,\"W\":7\x7d\n") none, Effect.flush,
         Effect.encode (ascii "\x7b\"H\":8,\"W\":7\x7d\n") none, Effect.flush] :=
  (download_effects ⟨ascii "/dc/vm/"⟩
    ⟨⟨ascii "web1", [], 0, fun _ => none⟩, ⟨Fd.std 1, 0, fun _ => [], fun _ => false, []⟩⟩
    (fun _ => rfl)).2.1

/-- C9: for `k` from 1 to 3, if the first `k-1` writes succeed and encoding the `k`-th record
fails with `e`, `handleDownloadVm` returns `e`; its calls are the two header calls, then the
first `k-1` records each encoded and flushed, in order, then the failed attempt on record `k`,
and nothing after it. -/
theorem download_fails_at (a : App) (s : State) (k : Nat) (e : GoError) (l : HW)
    (hk1 : 1 ≤ k) (hk3 : k ≤ 3) (hl : demoRecords[k - 1]? = some l)
    (hok : ∀ i, i < k - 1 → s.ctx.outcome (s.ctx.writes + i) = none)
    (hfail : s.ctx.outcome (s.ctx.writes + (k - 1)) = some e) :
    (handleDownloadVm a s).2 = some e
    ∧ (handleDownloadVm a s).1.ctx.log = s.ctx.log ++
        [Effect.setHeader HeaderName.contentType HeaderValue.applicationJSON,
         Effect.writeHeader 200] ++
        deliveredEffects (demoRecords.take (k - 1)) ++
        [Effect.encode (encodedLine l) (some e)] := by
  have _h := And.intro hk1 hk3
  have hrun := emitLoop_fail demoRecords
    ((s.ctx.setHeader HeaderName.contentType HeaderValue.applicationJSON).writeHeader
      httpStatusOK) (k - 1) e l hl
    (by simpa [Context.setHeader, Context.writeHeader, Context.record] using hok)
    (by simpa [Context.setHeader, Context.writeHeader, Context.record] using hfail)
  rw [handleDownloadVm_eq, hrun]
  simp [Context.setHeader, Context.writeHeader, Context.record, httpStatusOK]

/-- The second record fails with "broken pipe": the first is delivered and flushed, the third
is never attempted. -/
theorem download_fails_at_witness :
    (handleDownloadVm ⟨[]⟩
        ⟨⟨[], [], 0, fun n => if n = 1 then some ⟨ascii "broken pipe"⟩ else none⟩,
         ⟨Fd.std 1, 0, fun _ => [], fun _ => false, []⟩⟩).2 = some ⟨ascii "broken pipe"⟩
    ∧ (handleDownloadVm ⟨[]⟩
        ⟨⟨[], [], 0, fun n => if n = 1 then some ⟨ascii "broken pipe"⟩ else none⟩,
         ⟨Fd.std 1, 0, fun _ => [], fun _ => false, []⟩⟩).1.ctx.log = [] ++
        [Effect.setHeader HeaderName.contentType HeaderValue.applicationJSON,
         Effect.writeHeader 200] ++
        deliveredEffects (demoRecords.take (2 - 1)) ++
        [Effect.encode (encodedLine ⟨4, 7⟩) (some ⟨ascii "broken pipe"⟩)] :=
  download_fails_at ⟨[]⟩
    ⟨⟨[], [], 0, fun n => if n = 1 then some ⟨ascii "broken pipe"⟩ else none⟩,
     ⟨Fd.std 1, 0, fun _ => [], fun _ => false, []⟩⟩
    2 ⟨ascii "broken pipe"⟩ ⟨4, 7⟩ (by decide) (by decide) (by decide)
    (by intro i hi; have : i = 0 := by omega
        subst this; decide)
    (by decide)

/-! ## The error-translation middleware -/

/-- C4: for every handler `h`, the wrapped handler runs `h` once, on the state it is given. If
`h` returns no error, the result is the state `h` left and no error: the middleware writes
nothing. If `h` returns the error `e`, the state is the one `h` left with exactly one more
call, `ctx.JSON(400, {"error": text of e})`, and the middleware returns the result of that
call instead of `e`; that result is no error (so in particular when the write succeeds). -/
theorem middleware_translates (h : HandlerFunc) (s : State) :
    ((h s).2 = none → echoJsonCheckErrorMW h s = ((h s).1, none))
    ∧ ∀ e, (h s).2 = some e →
        (echoJsonCheckErrorMW h s).1 =
          { (h s).1 with ctx := (replyJsonError (h s).1.ctx e).1 }
        ∧ (echoJsonCheckErrorMW h s).1.ctx.log = (h s).1.ctx.log ++
          [Effect.json 400 ⟨"error", Payload.text e.msg⟩
            ((h s).1.ctx.outcome (h s).1.ctx.writes)]
        ∧ (echoJsonCheckErrorMW h s).1.os = (h s).1.os
        ∧ (echoJsonCheckErrorMW h s).2 = (replyJsonError (h s).1.ctx e).2
        ∧ (echoJsonCheckErrorMW h s).2 = none := by
  constructor
  · intro hn
    rcases hs : h s with ⟨s1, err⟩
    rw [hs] at hn
    simp only at hn
    subst hn
    simp [echoJsonCheckErrorMW, hs]
  · intro e he
    rcases hs : h s with ⟨s1, err⟩
    rw [hs] at he
    simp only at he
    subst he
    simp [echoJsonCheckErrorMW, hs, replyJsonError, Context.JSON, fmtSprintf]

/-- A handler that flushes once and fails with "boom": under the middleware the log holds that
one flush, then the error envelope, and the error is not returned. -/
theorem middleware_translates_witness :
    (echoJsonCheckErrorMW (fun s => ({ s with ctx := s.ctx.flush }, some ⟨ascii "boom"⟩))
        ⟨⟨[], [], 0, fun _ => none⟩, ⟨Fd.std 1, 0, fun _ => [], fun _ => false, []⟩⟩).1.ctx.log =
      [Effect.flush] ++ [Effect.json 400 ⟨"error", Payload.text (ascii "boom")⟩ none]
    ∧ (echoJsonCheckErrorMW (fun s => ({ s with ctx := s.ctx.flush }, some ⟨ascii "boom"⟩))
        ⟨⟨[], [], 0, fun _ => none⟩, ⟨Fd.std 1, 0, fun _ => [], fun _ => false, []⟩⟩).2 = none :=
  have h := (middleware_translates
    (fun s => ({ s with ctx := s.ctx.flush }, some ⟨ascii "boom"⟩))
    ⟨⟨[], [], 0, fun _ => none⟩, ⟨Fd.std 1, 0, fun _ => [], fun _ => false, []⟩⟩).2
    ⟨ascii "boom"⟩ rfl
  ⟨h.2.1, h.2.2.2.2⟩

/-- C5, as stated, fails: when the second record fails with "broken pipe", the route
`POST /vms/:alias` calls `ctx.JSON(400, {"error": "broken pipe"})` after the record already
sent, and returns no error. On a sink where only that write fails the envelope is written; on
a sink that fails from then on the same call is still made and the route still returns no
error. -/
theorem download_error_is_rewrapped :
    (handleDownloadVm ⟨[]⟩
        ⟨⟨[], [], 0, fun n => if n = 1 then some ⟨ascii "broken pipe"⟩ else none⟩,
         ⟨Fd.std 1, 0, fun _ => [], fun _ => false, []⟩⟩).2 = some ⟨ascii "broken pipe"⟩
    ∧ (App.router ⟨[]⟩ (fun _ => ⟨[], 0⟩) Route.postVmsAlias
        ⟨⟨[], [], 0, fun n => if n = 1 then some ⟨ascii "broken pipe"⟩ else none⟩,
         ⟨Fd.std 1, 0, fun _ => [], fun _ => false, []⟩⟩).1.ctx.log =
        [Effect.setHeader HeaderName.contentType HeaderValue.applicationJSON,
         Effect.writeHeader 200,
         Effect.encode (ascii "\x7b\"H\":2,\"W\":7\x7d\n") none, Effect.flush,
         Effect.encode (ascii "\x7b\"H\":4,\"W\":7\x7d\n") (some ⟨ascii "broken pipe"⟩),
         Effect.json 400 ⟨"error", Payload.text (ascii "broken pipe")⟩ none]
    ∧ (App.router ⟨[]⟩ (fun _ => ⟨[], 0⟩) Route.postVmsAlias
        ⟨⟨[], [], 0, fun n => if n = 1 then some ⟨ascii "broken pipe"⟩ else none⟩,
         ⟨Fd.std 1, 0, fun _ => [], fun _ => false, []⟩⟩).2 = none
    ∧ (App.router ⟨[]⟩ (fun _ => ⟨[], 0⟩) Route.postVmsAlias
        ⟨⟨[], [], 0, fun n => if 1 ≤ n then some ⟨ascii "broken pipe"⟩ else none⟩,
         ⟨Fd.std 1, 0, fun _ => [], fun _ => false, []⟩⟩).1.ctx.log =
        [Effect.setHeader HeaderName.contentType HeaderValue.applicationJSON,
         Effect.writeHeader 200,
         Effect.encode (ascii "\x7b\"H\":2,\"W\":7\x7d\n") none, Effect.flush,
         Effect.encode (ascii "\x7b\"H\":4,\"W\":7\x7d\n") (some ⟨ascii "broken pipe"⟩),
         Effect.json 400 ⟨"error", Payload.text (ascii "broken pipe")⟩
           (some ⟨ascii "broken pipe"⟩)]
    ∧ (App.router ⟨[]⟩ (fun _ => ⟨[], 0⟩) Route.postVmsAlias
        ⟨⟨[], [], 0, fun n => if 1 ≤ n then some ⟨ascii "broken pipe"⟩ else none⟩,
         ⟨Fd.std 1, 0, fun _ => [], fun _ => false, []⟩⟩).2 = none := by
  decide

/-- C5, amended: when encoding the `k`-th record fails with `e` after `k-1` successful writes,
the error goes to the handler's caller, the error-translation middleware, which re-wraps it:
on the route `POST /vms/:alias` the calls are the header calls, the `k-1` delivered records, the
failed attempt, and then `ctx.JSON(400, {"error": text of e})`; the route itself returns no
error. -/
theorem download_error_translated (a : App) (govc : Govc) (s : State) (k : Nat) (e : GoError)
    (l : HW) (hk1 : 1 ≤ k) (hl : demoRecords[k - 1]? = some l)
    (hok : ∀ i, i < k - 1 → s.ctx.outcome (s.ctx.writes + i) = none)
    (hfail : s.ctx.outcome (s.ctx.writes + (k - 1)) = some e) :
    (handleDownloadVm a s).2 = some e
    ∧ (a.router govc Route.postVmsAlias s).1.ctx.log = s.ctx.log ++
        [Effect.setHeader HeaderName.contentType HeaderValue.applicationJSON,
         Effect.writeHeader 200] ++
        deliveredEffects (demoRecords.take (k - 1)) ++
        [Effect.encode (encodedLine l) (some e)] ++
        [Effect.json 400 ⟨"error", Payload.text e.msg⟩ (s.ctx.outcome (s.ctx.writes + k))]
    ∧ (a.router govc Route.postVmsAlias s).2 = none := by
  have hrun := emitLoop_fail demoRecords
    ((s.ctx.setHeader HeaderName.contentType HeaderValue.applicationJSON).writeHeader
      httpStatusOK) (k - 1) e l hl
    (by simpa [Context.setHeader, Context.writeHeader, Context.record] using hok)
    (by simpa [Context.setHeader, Context.writeHeader, Context.record] using hfail)
  have hk : k - 1 + 1 = k := by omega
  have hd : handleDownloadVm a s = _ := handleDownloadVm_eq a s
  rw [hrun] at hd
  refine ⟨by rw [hd], ?_, ?_⟩
  · simp [App.router, echoJsonCheckErrorMW, hd, replyJsonError, Context.JSON, fmtSprintf,
      Context.setHeader, Context.writeHeader, Context.record, httpStatusOK, Nat.add_assoc, hk]
  · simp [App.router, echoJsonCheckErrorMW, hd, replyJsonError, Context.JSON]

/-- The third record fails with "reset" on a sink that accepts the next write. -/
theorem download_error_translated_witness :
    (App.router ⟨[]⟩ (fun _ => ⟨[], 0⟩) Route.postVmsAlias
        ⟨⟨[], [], 0, fun n => if n = 2 then some ⟨ascii "reset"⟩ else none⟩,
         ⟨Fd.std 1, 0, fun _ => [], fun _ => false, []⟩⟩).2 = none :=
  (download_error_translated ⟨[]⟩ (fun _ => ⟨[], 0⟩)
    ⟨⟨[], [], 0, fun n => if n = 2 then some ⟨ascii "reset"⟩ else none⟩,
     ⟨Fd.std 1, 0, fun _ => [], fun _ => false, []⟩⟩
    3 ⟨ascii "reset"⟩ ⟨8, 7⟩ (by decide) (by decide)
    (by intro i hi; have : i = 0 ∨ i = 1 := by omega
        rcases this with h | h <;> subst h <;> decide)
    (by decide)).2.2

/-! ## The route `GET /vms` -/

/-- C6: for every command, whatever it prints and whatever status it returns,
`handleListVm` leaves `os.Stdout` as it found it. The operations the handler performs on the
process are, in order: create the pipe, point `os.Stdout` at its write end, run the command
while `os.Stdout` is that write end, close the write end, and assign the saved original back
to `os.Stdout`. The text of the command ends up in the pipe and nowhere else. The restoring
assignment closes the capture sequence, whose final state is the state the handler returns
on the success path and on the failure path alike: the test of `res` comes after it. -/
theorem stdout_restored (a : App) (govc : Govc) (s : State) :
    (handleListVm a govc s).1.os.stdout = s.os.stdout
    ∧ (handleListVm a govc s).1.os.history = s.os.history ++
        [OsEvent.pipeMade (Fd.pipeR s.os.nextPipe) (Fd.pipeW s.os.nextPipe),
         OsEvent.stdoutSet (Fd.pipeW s.os.nextPipe),
         OsEvent.ran a.lsArgs (Fd.pipeW s.os.nextPipe),
         OsEvent.fileClosed (Fd.pipeW s.os.nextPipe),
         OsEvent.stdoutSet s.os.stdout]
    ∧ (handleListVm a govc s).1.os.data (Fd.pipeW s.os.nextPipe) = (govc a.lsArgs).text
    ∧ (∀ fd, fd ≠ Fd.pipeW s.os.nextPipe →
        (handleListVm a govc s).1.os.data fd = s.os.data fd)
    ∧ (handleListVm a govc s).1.os = (captureRun govc a.lsArgs s.os).2.2
    ∧ (captureRun govc a.lsArgs s.os).1 = (govc a.lsArgs).text
    ∧ ((govc a.lsArgs).code = 0 → (handleListVm a govc s).2 = none)
    ∧ ((govc a.lsArgs).code ≠ 0 →
        (handleListVm a govc s).2 =
          some (fmtErrorf (govc a.lsArgs).text (govc a.lsArgs).code))
    ∧ (a.router govc Route.getVms s).1.os.stdout = s.os.stdout
    ∧ (a.router govc Route.getVms s).1.os.history = (handleListVm a govc s).1.os.history := by
  have hos : (handleListVm a govc s).1.os = (captureRun govc a.lsArgs s.os).2.2 := by
    by_cases h : (captureRun govc a.lsArgs s.os).2.1 = 0
    · rw [handleListVm_ok a govc s h]
    · rw [handleListVm_fail a govc s h]
  have hst := captureRun_stdout govc a.lsArgs s.os
  have hmw : (a.router govc Route.getVms s).1.os = (handleListVm a govc s).1.os := by
    simp only [App.router, echoJsonCheckErrorMW]
    rcases handleListVm a govc s with ⟨s1, err⟩
    cases err <;> rfl
  refine ⟨by rw [hos, hst], ?_, ?_, ?_, hos, captureRun_out _ _ _, ?_, ?_, ?_, ?_⟩
  · rw [hos]
    simp [captureRun, redirectStdout, setStdout, osPipe, cliRun, fileWrite, fileClose]
  · rw [hos]
    simp [captureRun, redirectStdout, setStdout, osPipe, cliRun, fileWrite, fileClose]
  · intro fd hfd
    rw [hos]
    simp [captureRun, redirectStdout, setStdout, osPipe, cliRun, fileWrite, fileClose,
      Function.update_noteq hfd]
  · intro h0
    rw [handleListVm_ok a govc s (by rw [captureRun_res]; exact h0)]
  · intro hne
    rw [handleListVm_fail a govc s (by rw [captureRun_res]; exact hne),
      captureRun_out, captureRun_res]
  · rw [hmw, hos, hst]
  · rw [hmw]

/-! ## Configuration precedence -/

theorem copyKey_other (v : Viper) (env : Env) (k0 k : String) (h : k ≠ k0) :
    copyKey v env k0 k = env k := by
  unfold copyKey
  split
  · simp [osSetenv, Function.update_noteq h]
  · rfl

/-- The loop of `NewApp` over any list of keys: a key of the list that the configuration sets
and for which `os.Getenv` is empty receives the configured value; every other variable is
left as it was. -/
theorem foldl_copyKey (v : Viper) (ks : List String) (env : Env) (k : String) :
    (ks.foldl (copyKey v) env) k =
      if k ∈ ks ∧ v.IsSet k = true ∧ osGetenv env k = [] then some (v.GetString k)
      else env k := by
  induction ks generalizing env with
  | nil => simp
  | cons k0 ks ih =>
    rw [List.foldl_cons, ih]
    by_cases hk : k = k0
    · subst hk
      by_cases hc : v.IsSet k = true ∧ osGetenv env k = []
      · have hcopy : copyKey v env k = osSetenv env k (v.GetString k) := by
          simp [copyKey, hc.1, hc.2]
        simp [hcopy, osSetenv, hc.1, hc.2]
      · have hcopy : copyKey v env k = env := by
          unfold copyKey
          rw [if_neg]
          simpa using hc
        rw [hcopy]
        have h1 : ¬ (k ∈ ks ∧ v.IsSet k = true ∧ osGetenv env k = []) := fun h => hc h.2
        have h2 : ¬ (k ∈ k :: ks ∧ v.IsSet k = true ∧ osGetenv env k = []) := fun h => hc h.2
        rw [if_neg h1, if_neg h2]
    · have hg : osGetenv (copyKey v env k0) k = osGetenv env k := by
        simp [osGetenv, copyKey_other v env k0 k hk]
      rw [hg, copyKey_other v env k0 k hk]
      simp [hk]

/-- C8, as stated, fails: with `GOVC_URL` defined in the environment with an empty value and
set to `https://vc` in the file, `NewApp` overwrites the variable with the file's value. -/
theorem newApp_overwrites_empty_value :
    ((fun k => if k = "GOVC_URL" then some [] else none : Env) "GOVC_URL").isSome = true
    ∧ (NewApp (Except.ok ⟨fun k => if k = "GOVC_URL" then some (ascii "https://vc") else none⟩)
        (fun k => if k = "GOVC_URL" then some [] else none)).map (fun p => p.2 "GOVC_URL") =
      some (some (ascii "https://vc")) := by
  decide

/-- C8, amended: when the configuration loads, `NewApp` returns, and for every variable `k`:
if `k` is one of the eight keys, the file sets it and `os.Getenv(k)` is empty (the variable is
undefined, or defined with an empty value), the variable becomes the file's value; if its
environment value is not empty it is kept; if the file does not set it, it is not written; and
if it is not one of the eight keys, it is not changed. -/
theorem newApp_env (v : Viper) (env : Env) :
    ∃ app env1, NewApp (Except.ok v) env = some (app, env1) ∧
      ∀ k,
        (k ∈ govcKeys → v.IsSet k = true → osGetenv env k = [] →
          env1 k = some (v.GetString k))
        ∧ (osGetenv env k ≠ [] → env1 k = env k)
        ∧ (v.IsSet k = false → env1 k = env k)
        ∧ (k ∉ govcKeys → env1 k = env k) := by
  refine ⟨_, _, rfl, ?_⟩
  intro k
  simp only [foldl_copyKey]
  refine ⟨?_, ?_, ?_, ?_⟩
  · intro h1 h2 h3
    rw [if_pos ⟨h1, h2, h3⟩]
  · intro h
    rw [if_neg (fun hc => h hc.2.2)]
  · intro h
    rw [if_neg (fun hc => by simp [h] at hc)]
  · intro h
    rw [if_neg (fun hc => h hc.1)]

/-- The file sets `GOVC_URL` and `GOVC_USERNAME`; the environment defines `GOVC_URL` only: the
URL keeps its environment value and the user name comes from the file. -/
theorem newApp_env_witness :
    (NewApp (Except.ok ⟨fun k => if k = "GOVC_URL" then some (ascii "https://file")
          else if k = "GOVC_USERNAME" then some (ascii "bob") else none⟩)
        (fun k => if k = "GOVC_URL" then some (ascii "https://env") else none)).map
      (fun p => (p.2 "GOVC_URL", p.2 "GOVC_USERNAME")) =
    some (some (ascii "https://env"), some (ascii "bob")) := by
  obtain ⟨app, env1, happ, hk⟩ := newApp_env
    ⟨fun k => if k = "GOVC_URL" then some (ascii "https://file")
      else if k = "GOVC_USERNAME" then some (ascii "bob") else none⟩
    (fun k => if k = "GOVC_URL" then some (ascii "https://env") else none)
  rw [happ]
  have h1 := (hk "GOVC_URL").2.1 (by decide)
  have h2 := (hk "GOVC_USERNAME").1 (by decide) (by decide) (by decide)
  simp only [Option.map_some', h1, h2]
  decide

/-! ## Concurrent invocations of the capture sequence -/

theorem step_other (govcs : Nat → Govc) (args : List GoString) (m : Machine) (i j : Nat)
    (h : j ≠ i) : (Machine.step govcs args m i).threads j = m.threads j := by
  simp [Machine.step, Function.update_noteq h]

theorem run_replicate_other (govcs : Nat → Govc) (args : List GoString) (k : Nat) (m : Machine)
    (i j : Nat) (h : j ≠ i) :
    (Machine.run govcs args m (List.replicate k i)).threads j = m.threads j := by
  induction k generalizing m with
  | zero => simp [Machine.run]
  | succ k ih =>
    have := ih (Machine.step govcs args m i)
    simp only [Machine.run, List.replicate_succ, List.foldl_cons] at this ⊢
    rw [this, step_other govcs args m i j h]

theorem run_append (govcs : Nat → Govc) (args : List GoString) (m : Machine)
    (p q : List Nat) :
    Machine.run govcs args m (p ++ q) =
      Machine.run govcs args (Machine.run govcs args m p) q := by
  simp [Machine.run, List.foldl_append]

/-- Seven consecutive steps of an invocation that has not started are the capture sequence of
`handleListVm` run without interruption. -/
theorem run_solo (govcs : Nat → Govc) (args : List GoString) (m : Machine) (i : Nat)
    (h : m.threads i = Locals.start) :
    (Machine.run govcs args m (List.replicate 7 i)).os = (captureRun (govcs i) args m.os).2.2
    ∧ ((Machine.run govcs args m (List.replicate 7 i)).threads i).out =
        (captureRun (govcs i) args m.os).1
    ∧ ((Machine.run govcs args m (List.replicate 7 i)).threads i).res =
        (captureRun (govcs i) args m.os).2.1
    ∧ ((Machine.run govcs args m (List.replicate 7 i)).threads i).pc = 7 := by
  simp [Machine.run, List.replicate, Machine.step, stmt, h, Locals.start, captureRun,
    redirectStdout, setStdout, osPipe, cliRun, fileWrite, fileClose, ioutilReadAll]

theorem serial_full (govcs : Nat → Govc) (args : List GoString) (os0 : World) (n : Nat) :
    (Machine.run govcs args (Machine.init os0) (serialSchedule n)).os.stdout = os0.stdout
    ∧ (∀ i, i < n →
        ((Machine.run govcs args (Machine.init os0) (serialSchedule n)).threads i).pc = 7
        ∧ ((Machine.run govcs args (Machine.init os0) (serialSchedule n)).threads i).out =
            (govcs i args).text
        ∧ ((Machine.run govcs args (Machine.init os0) (serialSchedule n)).threads i).res =
            (govcs i args).code)
    ∧ (∀ i, n ≤ i →
        (Machine.run govcs args (Machine.init os0) (serialSchedule n)).threads i =
          Locals.start) := by
  induction n with
  | zero => simp [serialSchedule, Machine.run, Machine.init]
  | succ n ih =>
    obtain ⟨ih1, ih2, ih3⟩ := ih
    have hstart := ih3 n (Nat.le_refl n)
    obtain ⟨s1, s2, s3, s4⟩ := run_solo govcs args _ n hstart
    simp only [serialSchedule, run_append]
    refine ⟨?_, ?_, ?_⟩
    · rw [s1, captureRun_stdout, ih1]
    · intro i hi
      by_cases hin : i = n
      · subst hin
        rw [s2, s3, s4, captureRun_out, captureRun_res]
        exact ⟨rfl, rfl, rfl⟩
      · rw [run_replicate_other govcs args 7 _ n i hin]
        exact ih2 i (by omega)
    · intro i hi
      rw [run_replicate_other govcs args 7 _ n i (by omega)]
      exact ih3 i (by omega)

theorem serial_idle (govcs : Nat → Govc) (args : List GoString) (os0 : World) (n k x : Nat)
    (hx : x ≠ n) :
    ((Machine.run govcs args
        (Machine.run govcs args (Machine.init os0) (serialSchedule n))
        (List.replicate k n)).threads x).holdsRedirect = false := by
  rw [run_replicate_other govcs args k _ n x hx]
  obtain ⟨_, h2, h3⟩ := serial_full govcs args os0 n
  by_cases hlt : x < n
  · simp [Locals.holdsRedirect, (h2 x hlt).1]
  · rw [h3 x (by omega)]
    simp [Locals.holdsRedirect, Locals.start]

theorem serial_exclusive (govcs : Nat → Govc) (args : List GoString) (os0 : World) (n : Nat) :
    ∀ t i j : Nat,
      ((Machine.run govcs args (Machine.init os0)
          ((serialSchedule n).take t)).threads i).holdsRedirect = true →
      ((Machine.run govcs args (Machine.init os0)
          ((serialSchedule n).take t)).threads j).holdsRedirect = true →
      i = j := by
  induction n with
  | zero =>
    intro t i j hi
    simp [serialSchedule, Machine.run, Machine.init, Locals.holdsRedirect, Locals.start] at hi
  | succ n ih =>
    intro t i j hi hj
    by_cases ht : t ≤ (serialSchedule n).length
    · have hp : (serialSchedule (n + 1)).take t = (serialSchedule n).take t := by
        simp only [serialSchedule]
        rw [List.take_append_of_le_length ht]
      rw [hp] at hi hj
      exact ih t i j hi hj
    · have hp : (serialSchedule (n + 1)).take t =
          serialSchedule n ++ List.replicate (min (t - (serialSchedule n).length) 7) n := by
        simp only [serialSchedule]
        rw [List.take_append_eq_append_take, List.take_of_length_le (by omega),
          List.take_replicate]
      rw [hp, run_append] at hi hj
      have hin : i = n := by
        by_contra hne
        rw [serial_idle govcs args os0 n _ i hne] at hi
        exact Bool.false_ne_true hi
      have hjn : j = n := by
        by_contra hne
        rw [serial_idle govcs args os0 n _ j hne] at hj
        exact Bool.false_ne_true hj
      rw [hin, hjn]

/-- C7, as stated, fails: two invocations whose first three statements alternate
(`0,0,0,1,1,1`) both hold the redirected stream; when they then finish one after the other,
the first invocation captures nothing although its command printed `/dc/vm/a`, the second
captures the text of the first while its own text `/dc/vm/b` went to the original standard
output, and `os.Stdout` is left on the closed write end of the first pipe. -/
theorem interleaving_breaks_capture :
    ((Machine.run (fun i _ => if i = 0 then ⟨ascii "/dc/vm/a\n", 0⟩ else ⟨ascii "/dc/vm/b\n", 0⟩)
        [] (Machine.init ⟨Fd.std 1, 0, fun _ => [], fun _ => false, []⟩)
        [0, 0, 0, 1, 1, 1]).threads 0).holdsRedirect = true
    ∧ ((Machine.run (fun i _ => if i = 0 then ⟨ascii "/dc/vm/a\n", 0⟩ else ⟨ascii "/dc/vm/b\n", 0⟩)
        [] (Machine.init ⟨Fd.std 1, 0, fun _ => [], fun _ => false, []⟩)
        [0, 0, 0, 1, 1, 1]).threads 1).holdsRedirect = true
    ∧ ((Machine.run (fun i _ => if i = 0 then ⟨ascii "/dc/vm/a\n", 0⟩ else ⟨ascii "/dc/vm/b\n", 0⟩)
        [] (Machine.init ⟨Fd.std 1, 0, fun _ => [], fun _ => false, []⟩)
        [0, 0, 0, 1, 1, 1, 0, 0, 0, 0, 1, 1, 1, 1]).threads 0) =
      ⟨7, Fd.std 1, Fd.pipeR 0, Fd.pipeW 0, 0, []⟩
    ∧ ((Machine.run (fun i _ => if i = 0 then ⟨ascii "/dc/vm/a\n", 0⟩ else ⟨ascii "/dc/vm/b\n", 0⟩)
        [] (Machine.init ⟨Fd.std 1, 0, fun _ => [], fun _ => false, []⟩)
        [0, 0, 0, 1, 1, 1, 0, 0, 0, 0, 1, 1, 1, 1]).threads 1) =
      ⟨7, Fd.pipeW 0, Fd.pipeR 1, Fd.pipeW 1, 0, ascii "/dc/vm/a\n"⟩
    ∧ (Machine.run (fun i _ => if i = 0 then ⟨ascii "/dc/vm/a\n", 0⟩ else ⟨ascii "/dc/vm/b\n", 0⟩)
        [] (Machine.init ⟨Fd.std 1, 0, fun _ => [], fun _ => false, []⟩)
        [0, 0, 0, 1, 1, 1, 0, 0, 0, 0, 1, 1, 1, 1]).os.data (Fd.std 1) = ascii "/dc/vm/b\n"
    ∧ (Machine.run (fun i _ => if i = 0 then ⟨ascii "/dc/vm/a\n", 0⟩ else ⟨ascii "/dc/vm/b\n", 0⟩)
        [] (Machine.init ⟨Fd.std 1, 0, fun _ => [], fun _ => false, []⟩)
        [0, 0, 0, 1, 1, 1, 0, 0, 0, 0, 1, 1, 1, 1]).os.stdout = Fd.pipeW 0
    ∧ (Machine.run (fun i _ => if i = 0 then ⟨ascii "/dc/vm/a\n", 0⟩ else ⟨ascii "/dc/vm/b\n", 0⟩)
        [] (Machine.init ⟨Fd.std 1, 0, fun _ => [], fun _ => false, []⟩)
        [0, 0, 0, 1, 1, 1, 0, 0, 0, 0, 1, 1, 1, 1]).os.closed (Fd.pipeW 0) = true := by
  decide

/-- C7, amended: the capture sequence of `handleListVm` takes no lock. When `n` invocations
run one after another, each finishing its seven statements before the next starts, then at
every moment at most one invocation holds the redirected stream, every invocation ends with
the text and status of its own command, and after the last one `os.Stdout` is the original
target. -/
theorem serial_invocations (govcs : Nat → Govc) (args : List GoString) (os0 : World)
    (n : Nat) :
    (∀ t i j : Nat,
      ((Machine.run govcs args (Machine.init os0)
          ((serialSchedule n).take t)).threads i).holdsRedirect = true →
      ((Machine.run govcs args (Machine.init os0)
          ((serialSchedule n).take t)).threads j).holdsRedirect = true →
      i = j)
    ∧ (∀ i, i < n →
        ((Machine.run govcs args (Machine.init os0) (serialSchedule n)).threads i).done = true
        ∧ ((Machine.run govcs args (Machine.init os0) (serialSchedule n)).threads i).out =
            (govcs i args).text
        ∧ ((Machine.run govcs args (Machine.init os0) (serialSchedule n)).threads i).res =
            (govcs i args).code)
    ∧ (Machine.run govcs args (Machine.init os0) (serialSchedule n)).os.stdout =
        os0.stdout := by
  obtain ⟨h1, h2, _⟩ := serial_full govcs args os0 n
  refine ⟨serial_exclusive govcs args os0 n, ?_, h1⟩
  intro i hi
  obtain ⟨hpc, hout, hres⟩ := h2 i hi
  exact ⟨by simp [Locals.done, hpc], hout, hres⟩

/-- The two commands of the failing interleaving, run one after the other: the second
invocation captures its own text. -/
theorem serial_invocations_witness :
    ((Machine.run (fun i _ => if i = 0 then ⟨ascii "/dc/vm/a\n", 0⟩ else ⟨ascii "/dc/vm/b\n", 0⟩)
        [] (Machine.init ⟨Fd.std 1, 0, fun _ => [], fun _ => false, []⟩)
        (serialSchedule 2)).threads 1).out = ascii "/dc/vm/b\n" :=
  ((serial_invocations
    (fun i _ => if i = 0 then ⟨ascii "/dc/vm/a\n", 0⟩ else ⟨ascii "/dc/vm/b\n", 0⟩)
    [] ⟨Fd.std 1, 0, fun _ => [], fun _ => false, []⟩ 2).2.1 1 (by decide)).2.1

end Govm
